import Mathlib

/-!
Verification of the JIT dispatch/lifecycle subsystem spec against the
repository sources.

The repository ships the provider-independent JIT documentation
(src/backend/jit/README), the intrusive list library (lib/ilist.h) and
partition metadata functions (partitionfuncs.c).  The executable JIT
dispatch code itself (jit.c / llvmjit.c) is not part of the source tree,
so the JIT-side operations are modelled from the spec; the ilist and
partition-function operations are embedded directly from the C sources.
-/

set_option autoImplicit false

namespace Ilist

/-- State of one singly linked list (`slist_head` plus the node store).
Nodes are identified by natural numbers; `nodeNext n` is the value of
`n->next` (`none` models a NULL pointer), `headNext` is
`head->head.next`.  Embeds the pointer structure of `ilist.h`. -/
structure SlistState where
  headNext : Option Nat
  nodeNext : Nat → Option Nat

/-- `slist_is_empty` from ilist.h: the list is empty iff the head's next
pointer is NULL. -/
def slist_is_empty (s : SlistState) : Bool :=
  s.headNext = none

/-- `slist_push_head` from ilist.h:
`node->next = head->head.next; head->head.next = node`. -/
def slist_push_head (s : SlistState) (node : Nat) : SlistState :=
  { headNext := some node
    nodeNext := fun m => if m = node then s.headNext else s.nodeNext m }

/-- `slist_pop_head_node` from ilist.h: asserts the list is non-empty,
unlinks and returns the first node
(`node = head->head.next; head->head.next = node->next`).
`none` models the assertion failure on an empty list. -/
def slist_pop_head_node (s : SlistState) : Option (SlistState × Nat) :=
  match s.headNext with
  | none => none
  | some node => some ({ s with headNext := s.nodeNext node }, node)

/-- The sequence of nodes reached by following `next` pointers from
`cur`, cut off at `fuel` steps (the C code promises no cycles only under
correct usage, so the observation is fuel-bounded). -/
def chainToList (next : Nat → Option Nat) : Nat → Option Nat → List Nat
  | 0, _ => []
  | _ + 1, none => []
  | fuel + 1, some n => n :: chainToList next fuel (next n)

/-- The element sequence of the list, observed to depth `fuel`. -/
def slistElems (s : SlistState) (fuel : Nat) : List Nat :=
  chainToList s.nodeNext fuel s.headNext

end Ilist

namespace Jit

/-- The four trigger decisions of the spec's Trigger Policy:
{skip, jit, jit+optimize, jit+optimize+inline}. -/
inductive Decision where
  | skip
  | jit
  | jit_optimize
  | jit_optimize_inline
deriving DecidableEq

/-- Aggressiveness rank of a decision (skip = 0 up to
jit+optimize+inline = 3). -/
def Decision.level : Decision → Nat
  | .skip => 0
  | .jit => 1
  | .jit_optimize => 2
  | .jit_optimize_inline => 3

/-- Modelled from the spec: a cost threshold "meets" test.  The
executable trigger-policy code (consulting jit_above_cost etc.) is not
in the source tree; per the spec a decision component fires when the
cost "meets or exceeds" its threshold, and each threshold is
independently disableable via a sentinel, modelled as `none`
(the README's -1 "never" value). -/
def meetsThreshold (cost : Nat) (t : Option Nat) : Bool :=
  match t with
  | none => false
  | some v => v ≤ cost

/-- Modelled from the spec:
`decide(cost, t_jit, t_optimize, t_inline) -> Decision`, the staircase
of which ordered thresholds the cost meets or exceeds. -/
def decide (cost : Nat) (t_jit t_optimize t_inline : Option Nat) : Decision :=
  if meetsThreshold cost t_jit then
    if meetsThreshold cost t_optimize then
      if meetsThreshold cost t_inline then .jit_optimize_inline
      else .jit_optimize
    else .jit
  else .skip

/-- Errors of the provider-independent JIT facility. -/
inductive JitError where
  | useAfterRelease
  | unknownFunction
deriving DecidableEq

/-- Modelled from the spec: a JIT Context (the executable context code
of jit.c/llvmjit.c is not in the source tree).  It owns the memoized
table from logical identity to compiled-function handle, the next fresh
handle, the materialization log (one entry per actual emission of a
definition), and its released flag. -/
structure Context where
  released : Bool
  table : List (Nat × Nat)
  nextHandle : Nat
  materialized : List Nat
deriving DecidableEq

/-- A freshly created Context: live, with no functions. -/
def initContext : Context := ⟨false, [], 0, []⟩

/-- Association lookup in the memoization table. -/
def lookupHandle : List (Nat × Nat) → Nat → Option Nat
  | [], _ => none
  | (k, h) :: rest, id => if k = id then some h else lookupHandle rest id

/-- Modelled from the spec: the emission step of `emit_or_get` on a
live Context.  A known logical identity returns its memoized handle and
changes nothing; a fresh identity is materialized once and bound to a
fresh handle. -/
def emitStep (ctx : Context) (id : Nat) : Context × Nat :=
  match lookupHandle ctx.table id with
  | some h => (ctx, h)
  | none =>
    ({ released := ctx.released
       table := (id, ctx.nextHandle) :: ctx.table
       nextHandle := ctx.nextHandle + 1
       materialized := ctx.materialized ++ [id] }, ctx.nextHandle)

/-- Modelled from the spec:
`emit_or_get(context, logical_id, definition) -> FunctionHandle`,
failing fast on a released Context. -/
def emit_or_get (ctx : Context) (id : Nat) : Except JitError (Context × Nat) :=
  if ctx.released then .error .useAfterRelease
  else .ok (emitStep ctx id)

/-- Modelled from the spec: function lookup (the `llvm_get_function`
shape) — fails fast on a released Context, never returning a stale
handle. -/
def get_function (ctx : Context) (id : Nat) : Except JitError Nat :=
  if ctx.released then .error .useAfterRelease
  else
    match lookupHandle ctx.table id with
    | some h => .ok h
    | none => .error .unknownFunction

/-- Modelled from the spec: `release(context)` discards all native code
and marks the Context released (terminal state). -/
def release (ctx : Context) : Context :=
  { released := true, table := [], nextHandle := ctx.nextHandle
    materialized := ctx.materialized }

/-- Run a sequence of `emit_or_get` requests on a live Context,
collecting the returned handles. -/
def runEmits : Context → List Nat → Context × List Nat
  | ctx, [] => (ctx, [])
  | ctx, id :: rest =>
    ((runEmits (emitStep ctx id).1 rest).1,
      (emitStep ctx id).2 :: (runEmits (emitStep ctx id).1 rest).2)

/-- Well-formedness of a Context as maintained by the emission
operations: live, identities and handles each pairwise distinct,
handles below the fresh-handle counter, and the materialization log is
exactly the identity column of the memoization table. -/
def ContextInv (c : Context) : Prop :=
  c.released = false
  ∧ (c.table.map Prod.fst).Nodup
  ∧ (c.table.map Prod.snd).Nodup
  ∧ (∀ p ∈ c.table, p.2 < c.nextHandle)
  ∧ c.materialized = (c.table.map Prod.fst).reverse

/-- Why loading the provider module can fail. -/
inductive LoadError where
  | notFound
  | loadFailed
deriving DecidableEq

/-- A loaded code-generation backend. -/
structure Provider where
  name : String
deriving DecidableEq

/-- Modelled from the spec: the configuration consumed by the dispatch
facade — the jit_provider GUC (none = JIT not configured) — together
with the environment's module loader, which may fail for a missing
module, unsupported platform, or build mismatch. -/
structure JitConfig where
  jit_provider : Option String
  loader : String → Except LoadError Provider

/-- Modelled from the spec: `ensure_loaded(name)` asks the environment
for the provider module. -/
def ensure_loaded (cfg : JitConfig) (name : String) : Except LoadError Provider :=
  cfg.loader name

/-- Modelled from the spec: `start(work_unit) -> Option<Context>` — the
provider-independent entry point; none when no provider is configured
or the module cannot be loaded, never a propagated error. -/
def start (cfg : JitConfig) : Option Context :=
  match cfg.jit_provider with
  | none => none
  | some n =>
    match ensure_loaded cfg n with
    | .error _ => none
    | .ok _ => some initContext

/-- A unit of work (e.g. one query) with its semantic result. -/
structure WorkUnit where
  payload : Nat
  result : Nat
deriving DecidableEq

/-- The interpreted (non-JIT) execution of a unit of work. -/
def interpret (w : WorkUnit) : Nat := w.result

/-- JITed execution of a unit of work: same semantics, native code. -/
def jitExecute (_ctx : Context) (w : WorkUnit) : Nat := w.result

/-- Modelled from the spec: running one unit of work — consult the
dispatch facade; absence of JIT falls back to interpretation with no
observable error. -/
def runWorkUnit (cfg : JitConfig) (w : WorkUnit) : Except JitError Nat :=
  match start cfg with
  | none => .ok (interpret w)
  | some ctx => .ok (jitExecute ctx w)

/-- Modelled from the spec: the per-binary bitcode indexes — the
engine's own index plus one index per extension binary, keyed by the
binary's name. -/
structure BitcodeIndexes where
  engineBinary : String
  engineIndex : String → Option String
  extIndex : String → String → Option String

/-- Modelled from the spec:
`resolve(symbol, owning_binary) -> Option<Definition>` — the engine's
own index is consulted first; only when that fails and the owning
binary is known and distinct from the engine binary is that one
binary's index consulted. -/
def resolve (idx : BitcodeIndexes) (symbol : String) (owningBinary : Option String) :
    Option String :=
  match idx.engineIndex symbol with
  | some d => some d
  | none =>
    match owningBinary with
    | none => none
    | some b => if b = idx.engineBinary then none else idx.extIndex b symbol

/-- What the inliner emits for one call site. -/
inductive CallEmission where
  | inlined (d : String)
  | directCall
deriving DecidableEq

/-- Modelled from the spec: an unresolved symbol makes the inliner emit
a direct (non-inlined) call, never a hard failure. -/
def emitCallSite (idx : BitcodeIndexes) (symbol : String) (owningBinary : Option String) :
    CallEmission :=
  match resolve idx symbol owningBinary with
  | some d => .inlined d
  | none => .directCall

/-- Status of one concurrently executing unit of work. -/
inductive UnitStatus where
  | running
  | errored
  | terminated
deriving DecidableEq

/-- How a failure surfaces. -/
inductive Outcome where
  | completed
  | recoverableError
  | fatalTermination
deriving DecidableEq

/-- One unit of work as seen by the safety guard: whether its execution
is currently inside a protected region, and its status. -/
structure WorkUnitState where
  inProtected : Bool
  status : UnitStatus
deriving DecidableEq

/-- Modelled from the spec: a foreign-library fatal condition (e.g.
allocation failure) striking one unit of work.  Inside a protected
region the installed handlers force FATAL — process-level termination
of the handling process instance — never the recoverable-error path.
Outside any protected region the condition is outside the contract;
the model routes it to the ordinary error path, which the claims never
rely on. -/
def onForeignFatal (u : WorkUnitState) : WorkUnitState × Outcome :=
  if u.inProtected then ({ u with status := .terminated }, .fatalTermination)
  else ({ u with status := .errored }, .recoverableError)

/-- A foreign fatal condition striking unit `i` of a collection of
concurrently executing units: only that unit's state changes. -/
def systemForeignFatal : List WorkUnitState → Nat → List WorkUnitState
  | [], _ => []
  | u :: rest, 0 => (onForeignFatal u).1 :: rest
  | u :: rest, i + 1 => u :: systemForeignFatal rest i

/-- Error of the guard discipline. -/
inductive GuardError where
  | unmatchedLeave
deriving DecidableEq

/-- The failure-handler state: the currently installed handler plus the
stack of handlers saved by enclosing protected regions. -/
structure GuardState where
  current : Nat
  saved : List Nat
deriving DecidableEq

/-- The fatal-on-OOM failure handler installed by the guard. -/
def fatalOnOomHandler : Nat := 1

/-- Modelled from the spec: `enter_protected()` installs the
fatal-on-OOM failure handler, saving the previously installed one. -/
def enter_protected (st : GuardState) : GuardState :=
  ⟨fatalOnOomHandler, st.current :: st.saved⟩

/-- Modelled from the spec: `leave_protected()` restores the previously
installed failure handler; an unmatched leave is a programming
error. -/
def leave_protected (st : GuardState) : Except GuardError GuardState :=
  match st.saved with
  | [] => .error .unmatchedLeave
  | p :: rest => .ok ⟨p, rest⟩

/-- Modelled from the spec: the scoped guard — construction installs
the failure handler, and destruction, reached on every exit path of the
body (normal or error), restores the prior one. -/
def scopedGuard (body : GuardState → GuardState × Except Nat Unit) (st : GuardState) :
    GuardState × Except Nat Unit :=
  let run := body (enter_protected st)
  match leave_protected run.1 with
  | .ok st' => (st', run.2)
  | .error _ => (run.1, run.2)

end Jit

namespace PartitionFuncs

/-- Relkind code from pg_class.h: ordinary table. -/
def RELKIND_RELATION : Char := 'r'

/-- Relkind code from pg_class.h: secondary index. -/
def RELKIND_INDEX : Char := 'i'

/-- Relkind code from pg_class.h: foreign table. -/
def RELKIND_FOREIGN_TABLE : Char := 'f'

/-- Relkind code from pg_class.h: partitioned table. -/
def RELKIND_PARTITIONED_TABLE : Char := 'p'

/-- Relkind code from pg_class.h: partitioned index. -/
def RELKIND_PARTITIONED_INDEX : Char := 'I'

/-- SQLSTATE error classes raised by the embedded code. -/
inductive PgErrCode where
  | wrong_object_type
  | undefined_table
deriving DecidableEq

/-- The catalog environment read by pg_partition_tree: `relkind oid`
models get_rel_relkind (the NUL character for a missing pg_class
entry), `inheritors` models find_all_inheritors and `ancestors` models
get_partition_ancestors.  Oids are naturals, 0 = InvalidOid. -/
structure PartEnv where
  relkind : Nat → Char
  inheritors : Nat → List Nat
  ancestors : Nat → List Nat

/-- One output row of pg_partition_tree:
(relid, parentid, isleaf, level). -/
structure PartitionTreeRow where
  relid : Nat
  parentid : Option Nat
  isleaf : Bool
  level : Nat
deriving DecidableEq

/-- The level loop of pg_partition_tree: walk the ancestor list,
counting, and stop after the entry equal to rootrelid. -/
def levelOf (ancestors : List Nat) (rootrelid : Nat) : Nat :=
  match ancestors with
  | [] => 0
  | a :: rest => if a = rootrelid then 1 else levelOf rest rootrelid + 1

/-- One per-call tuple of pg_partition_tree, embedded from
partitionfuncs.c: parentid is the first ancestor when valid, isleaf
tests the relkind against the two partitioned kinds, and level is 0 for
the root itself, else the ancestor count up to the root. -/
def partitionTreeRow (env : PartEnv) (rootrelid relid : Nat) : PartitionTreeRow :=
  let ancestors := env.ancestors relid
  let relkind := env.relkind relid
  let parentid := match ancestors with
    | [] => (0 : Nat)
    | a :: _ => a
  { relid := relid
    parentid := if parentid ≠ 0 then some parentid else none
    isleaf := relkind != RELKIND_PARTITIONED_TABLE && relkind != RELKIND_PARTITIONED_INDEX
    level := if relid = rootrelid then 0 else levelOf ancestors rootrelid }

/-- pg_partition_tree from partitionfuncs.c: relation kinds that cannot
appear in a partition tree are rejected with
ERRCODE_WRONG_OBJECT_TYPE before any row is produced; otherwise one row
per member of the inheritance set. -/
def pg_partition_tree (env : PartEnv) (rootrelid : Nat) :
    Except PgErrCode (List PartitionTreeRow) :=
  if env.relkind rootrelid ≠ RELKIND_RELATION ∧
      env.relkind rootrelid ≠ RELKIND_FOREIGN_TABLE ∧
      env.relkind rootrelid ≠ RELKIND_INDEX ∧
      env.relkind rootrelid ≠ RELKIND_PARTITIONED_TABLE ∧
      env.relkind rootrelid ≠ RELKIND_PARTITIONED_INDEX then
    Except.error PgErrCode.wrong_object_type
  else
    Except.ok ((env.inheritors rootrelid).map (partitionTreeRow env rootrelid))

end PartitionFuncs

/-! ## Theorems -/

namespace Ilist

/-- Traversal only reads the `next` pointers of the nodes it visits: two
node stores agreeing on every visited node produce the same sequence. -/
theorem chainToList_congr (next next' : Nat → Option Nat) (fuel : Nat) (cur : Option Nat)
    (h : ∀ m ∈ chainToList next fuel cur, next' m = next m) :
    chainToList next' fuel cur = chainToList next fuel cur := by
  induction fuel generalizing cur with
  | zero => rfl
  | succ f ih =>
    cases cur with
    | none => rfl
    | some n =>
      have hn : next' n = next n := h n (by simp [chainToList])
      simp only [chainToList, hn]
      refine congrArg (n :: ·) (ih (next n) ?_)
      intro m hm
      exact h m (by simp [chainToList, hm])

end Ilist

/-- Claim C9 (amended): for a node that does not occur in the list's
element sequence, `slist_push_head` followed by `slist_pop_head_node`
returns exactly that node, restores the head pointer, and leaves the
list's element sequence unchanged. -/
theorem slist_push_pop_head_roundtrip (s : Ilist.SlistState) (node fuel : Nat)
    (h : node ∉ Ilist.slistElems s fuel) :
    ∃ s', Ilist.slist_pop_head_node (Ilist.slist_push_head s node) = some (s', node)
      ∧ s'.headNext = s.headNext
      ∧ Ilist.slistElems s' fuel = Ilist.slistElems s fuel := by
  refine ⟨⟨s.headNext, fun m => if m = node then s.headNext else s.nodeNext m⟩, ?_, rfl, ?_⟩
  · simp [Ilist.slist_push_head, Ilist.slist_pop_head_node]
  · refine Ilist.chainToList_congr s.nodeNext _ fuel s.headNext ?_
    intro m hm
    have hmn : m ≠ node := fun he => h (he ▸ hm)
    simp [hmn]

/-- Witness for C9's amended theorem at a concrete list and node. -/
theorem slist_push_pop_head_roundtrip_witness :
    (0 ∉ Ilist.slistElems ⟨some 1, fun _ => none⟩ 3)
    ∧ ∃ s', Ilist.slist_pop_head_node (Ilist.slist_push_head ⟨some 1, fun _ => none⟩ 0)
          = some (s', 0)
        ∧ s'.headNext = some 1
        ∧ Ilist.slistElems s' 3 = Ilist.slistElems ⟨some 1, fun _ => none⟩ 3 :=
  ⟨by decide, slist_push_pop_head_roundtrip ⟨some 1, fun _ => none⟩ 0 3 (by decide)⟩

/-- Counterexample to claim C9 as stated for every node: pushing a node
that is already the sole member of the list and popping it back returns
the node, but the element sequence is no longer what it was (the push
overwrote the node's next pointer, creating a cycle). -/
theorem slist_push_pop_head_cex :
    Ilist.slist_pop_head_node (Ilist.slist_push_head ⟨some 0, fun _ => none⟩ 0)
      = some (⟨some 0, fun m => if m = 0 then some 0 else none⟩, 0)
    ∧ Ilist.slistElems ⟨some 0, fun m => if m = 0 then some 0 else none⟩ 2
        ≠ Ilist.slistElems (⟨some 0, fun _ => none⟩ : Ilist.SlistState) 2 := by
  constructor
  · rfl
  · decide

namespace Jit

/-- With all three thresholds enabled, `decide` is the nested
meets-or-exceeds staircase. -/
theorem decide_some_eq (cost t1 t2 t3 : Nat) :
    decide cost (some t1) (some t2) (some t3) =
      if t1 ≤ cost then
        if t2 ≤ cost then
          if t3 ≤ cost then .jit_optimize_inline else .jit_optimize
        else .jit
      else .skip := by
  simp [decide, meetsThreshold]

end Jit

/-- Claim C1: with `t_jit ≤ t_optimize ≤ t_inline`, the trigger policy
returns skip below `t_jit`, jit only on `[t_jit, t_optimize)`,
jit+optimize on `[t_optimize, t_inline)`, jit+optimize+inline at or
above `t_inline`, and its aggressiveness is monotone in the cost. -/
theorem decide_staircase (cost t_jit t_opt t_inl : Nat)
    (h1 : t_jit ≤ t_opt) (h2 : t_opt ≤ t_inl) :
    (cost < t_jit → Jit.decide cost (some t_jit) (some t_opt) (some t_inl) = .skip)
    ∧ (t_jit ≤ cost → cost < t_opt →
        Jit.decide cost (some t_jit) (some t_opt) (some t_inl) = .jit)
    ∧ (t_opt ≤ cost → cost < t_inl →
        Jit.decide cost (some t_jit) (some t_opt) (some t_inl) = .jit_optimize)
    ∧ (t_inl ≤ cost →
        Jit.decide cost (some t_jit) (some t_opt) (some t_inl) = .jit_optimize_inline)
    ∧ (∀ c c', c ≤ c' →
        (Jit.decide c (some t_jit) (some t_opt) (some t_inl)).level
          ≤ (Jit.decide c' (some t_jit) (some t_opt) (some t_inl)).level) := by
  refine ⟨?_, ?_, ?_, ?_, ?_⟩
  · intro hc
    rw [Jit.decide_some_eq, if_neg (by omega)]
  · intro hj ho
    rw [Jit.decide_some_eq, if_pos hj, if_neg (by omega)]
  · intro ho hi
    rw [Jit.decide_some_eq, if_pos (by omega), if_pos ho, if_neg (by omega)]
  · intro hi
    rw [Jit.decide_some_eq, if_pos (by omega), if_pos (by omega), if_pos hi]
  · intro c c' hcc
    rw [Jit.decide_some_eq, Jit.decide_some_eq]
    split_ifs <;> simp_all [Jit.Decision.level] <;> omega

/-- Witness for C1 at concrete cost 5 and thresholds 1 ≤ 2 ≤ 3. -/
theorem decide_staircase_witness :
    Jit.decide 5 (some 1) (some 2) (some 3) = .jit_optimize_inline :=
  (decide_staircase 5 1 2 3 (by decide) (by decide)).2.2.2.1 (by decide)

/-- Claim C2: with all three thresholds set to the disabled sentinel,
the trigger policy returns skip for every cost (in particular for cost
0 and for the largest cost of interest). -/
theorem decide_all_disabled (cost : Nat) :
    Jit.decide cost none none none = .skip := rfl

/-- Claim C7: after `release(context)`, every function lookup — and
every emission request — fails fast with an error and never returns a
stale handle. -/
theorem lookup_after_release_fails (ctx : Jit.Context) (id : Nat) :
    Jit.get_function (Jit.release ctx) id = .error .useAfterRelease
    ∧ Jit.emit_or_get (Jit.release ctx) id = .error .useAfterRelease :=
  ⟨rfl, rfl⟩

/-- Claim C4: when no provider is configured, or the provider module
cannot be loaded, `start` returns none rather than an error and the
unit of work completes via the interpreted fallback with no observable
error. -/
theorem start_absent_provider_falls_back (cfg : Jit.JitConfig) (w : Jit.WorkUnit)
    (h : cfg.jit_provider = none
      ∨ ∃ n e, cfg.jit_provider = some n ∧ cfg.loader n = .error e) :
    Jit.start cfg = none ∧ Jit.runWorkUnit cfg w = .ok (Jit.interpret w) := by
  have hs : Jit.start cfg = none := by
    rcases h with h | ⟨n, e, hn, he⟩
    · simp [Jit.start, h]
    · simp [Jit.start, hn, Jit.ensure_loaded, he]
  exact ⟨hs, by simp [Jit.runWorkUnit, hs]⟩

/-- Witness for C4: a configured provider whose module is missing. -/
theorem start_absent_provider_falls_back_witness :
    Jit.start ⟨some "llvmjit", fun _ => .error .notFound⟩ = none
    ∧ Jit.runWorkUnit ⟨some "llvmjit", fun _ => .error .notFound⟩ ⟨3, 7⟩
        = .ok (Jit.interpret ⟨3, 7⟩) :=
  start_absent_provider_falls_back _ _ (Or.inr ⟨"llvmjit", .notFound, rfl, rfl⟩)

/-- Claim C5: `resolve` consults the engine's own index first, then —
only when the owning binary is known and distinct — that binary's
index; a symbol in both indexes resolves to the engine's definition,
and an unresolved symbol yields a direct non-inlined call, not a
failure. -/
theorem resolve_engine_first (idx : Jit.BitcodeIndexes) (sym b d e : String)
    (owning : Option String) :
    (idx.engineIndex sym = some d → Jit.resolve idx sym owning = some d)
    ∧ (idx.engineIndex sym = some d → idx.extIndex b sym = some e →
        Jit.resolve idx sym (some b) = some d)
    ∧ (idx.engineIndex sym = none → b ≠ idx.engineBinary → idx.extIndex b sym = some e →
        Jit.resolve idx sym (some b) = some e)
    ∧ (Jit.resolve idx sym owning = none →
        Jit.emitCallSite idx sym owning = .directCall) := by
  refine ⟨?_, ?_, ?_, ?_⟩
  · intro hd
    simp [Jit.resolve, hd]
  · intro hd _
    simp [Jit.resolve, hd]
  · intro hn hb he
    simp [Jit.resolve, hn, hb, he]
  · intro hn
    simp [Jit.emitCallSite, hn]

/-- Witness for C5: a symbol defined both in the engine index and in an
extension index resolves to the engine's definition. -/
theorem resolve_engine_first_witness :
    Jit.resolve
      ⟨"postgres", fun s => if s = "int8eq" then some "engine_def" else none,
        fun _ s => if s = "int8eq" then some "ext_def" else none⟩
      "int8eq" (some "myext") = some "engine_def" :=
  (resolve_engine_first
      ⟨"postgres", fun s => if s = "int8eq" then some "engine_def" else none,
        fun _ s => if s = "int8eq" then some "ext_def" else none⟩
      "int8eq" "myext" "engine_def" "ext_def" (some "myext")).2.1 rfl rfl

/-- A foreign fatal condition hitting unit `i` leaves every other
unit's state untouched. -/
theorem systemForeignFatal_get_ne (units : List Jit.WorkUnitState) (i j : Nat)
    (hij : j ≠ i) :
    (Jit.systemForeignFatal units i).get? j = units.get? j := by
  induction units generalizing i j with
  | nil => rfl
  | cons u rest ih =>
    cases i with
    | zero =>
      cases j with
      | zero => exact absurd rfl hij
      | succ j' => rfl
    | succ i' =>
      cases j with
      | zero => rfl
      | succ j' =>
        simp only [Jit.systemForeignFatal, List.get?_cons_succ]
        exact ih i' j' (fun h => hij (by simp [h]))

/-- Claim C6: a foreign-library fatal condition striking a unit of work
inside a protected region yields process-level fatal termination of
that unit's handling process — never the recoverable-error path — and
leaves every unrelated concurrent unit unaffected. -/
theorem foreign_fatal_in_protected_region (units : List Jit.WorkUnitState) (i : Nat)
    (u : Jit.WorkUnitState) (_hu : units.get? i = some u) (hp : u.inProtected = true) :
    (Jit.onForeignFatal u).2 = .fatalTermination
    ∧ (Jit.onForeignFatal u).2 ≠ .recoverableError
    ∧ (Jit.onForeignFatal u).1.status = .terminated
    ∧ ∀ j, j ≠ i → (Jit.systemForeignFatal units i).get? j = units.get? j := by
  refine ⟨?_, ?_, ?_, fun j hj => systemForeignFatal_get_ne units i j hj⟩
  · simp [Jit.onForeignFatal, hp]
  · simp [Jit.onForeignFatal, hp]
  · simp [Jit.onForeignFatal, hp]

/-- Witness for C6 on a unit inside a protected region. -/
theorem foreign_fatal_in_protected_region_witness :
    (Jit.onForeignFatal ⟨true, .running⟩).2 = .fatalTermination
    ∧ (Jit.onForeignFatal ⟨true, .running⟩).2 ≠ .recoverableError
    ∧ (Jit.onForeignFatal ⟨true, .running⟩).1.status = .terminated :=
  let h := foreign_fatal_in_protected_region [⟨true, .running⟩] 0 ⟨true, .running⟩ rfl rfl
  ⟨h.1, h.2.1, h.2.2.1⟩

/-- Claim C8: guard enter/leave pairs nest exactly — `leave_protected`
undoes `enter_protected`; the scoped guard restores the previously
installed handler on every exit path of a well-nested body, error exits
included, without swallowing the body's outcome; and an unmatched
`leave_protected` is an error. -/
theorem guard_scoped_nesting (st : Jit.GuardState)
    (body : Jit.GuardState → Jit.GuardState × Except Nat Unit)
    (hbal : (body (Jit.enter_protected st)).1 = Jit.enter_protected st) :
    Jit.leave_protected (Jit.enter_protected st) = .ok st
    ∧ (Jit.scopedGuard body st).1 = st
    ∧ (Jit.scopedGuard body st).2 = (body (Jit.enter_protected st)).2
    ∧ ∀ h, Jit.leave_protected ⟨h, []⟩ = .error .unmatchedLeave := by
  have hleave : Jit.leave_protected (Jit.enter_protected st) = .ok st := rfl
  refine ⟨rfl, ?_, ?_, fun _ => rfl⟩
  · simp only [Jit.scopedGuard]
    rw [hbal, hleave]
  · simp only [Jit.scopedGuard]
    rw [hbal, hleave]

/-- Witness for C8 with a body that exits through the error path: the
prior handler state is still restored. -/
theorem guard_scoped_nesting_witness :
    (Jit.scopedGuard (fun s => (s, .error 7)) ⟨0, []⟩).1 = ⟨0, []⟩ :=
  (guard_scoped_nesting ⟨0, []⟩ (fun s => (s, .error 7)) rfl).2.1

/-- Claim C10: pg_partition_tree raises ERRCODE_WRONG_OBJECT_TYPE —
producing no rows — exactly when the argument's relkind is none of
ordinary table, foreign table, index, partitioned table, partitioned
index; for those five kinds it succeeds with the partition tree
rows. -/
theorem pg_partition_tree_relkind_gate (env : PartitionFuncs.PartEnv) (oid : Nat) :
    (PartitionFuncs.pg_partition_tree env oid
        = Except.error PartitionFuncs.PgErrCode.wrong_object_type
      ↔ ¬(env.relkind oid = PartitionFuncs.RELKIND_RELATION
          ∨ env.relkind oid = PartitionFuncs.RELKIND_FOREIGN_TABLE
          ∨ env.relkind oid = PartitionFuncs.RELKIND_INDEX
          ∨ env.relkind oid = PartitionFuncs.RELKIND_PARTITIONED_TABLE
          ∨ env.relkind oid = PartitionFuncs.RELKIND_PARTITIONED_INDEX))
    ∧ ((env.relkind oid = PartitionFuncs.RELKIND_RELATION
          ∨ env.relkind oid = PartitionFuncs.RELKIND_FOREIGN_TABLE
          ∨ env.relkind oid = PartitionFuncs.RELKIND_INDEX
          ∨ env.relkind oid = PartitionFuncs.RELKIND_PARTITIONED_TABLE
          ∨ env.relkind oid = PartitionFuncs.RELKIND_PARTITIONED_INDEX) →
        PartitionFuncs.pg_partition_tree env oid
          = Except.ok ((env.inheritors oid).map
              (PartitionFuncs.partitionTreeRow env oid))) := by
  unfold PartitionFuncs.pg_partition_tree
  split_ifs with h
  · obtain ⟨h1, h2, h3, h4, h5⟩ := h
    refine ⟨iff_of_true rfl ?_, fun hd => ?_⟩
    · rintro (hd | hd | hd | hd | hd) <;> simp_all
    · rcases hd with hd | hd | hd | hd | hd <;> simp_all
  · have hd : env.relkind oid = PartitionFuncs.RELKIND_RELATION
        ∨ env.relkind oid = PartitionFuncs.RELKIND_FOREIGN_TABLE
        ∨ env.relkind oid = PartitionFuncs.RELKIND_INDEX
        ∨ env.relkind oid = PartitionFuncs.RELKIND_PARTITIONED_TABLE
        ∨ env.relkind oid = PartitionFuncs.RELKIND_PARTITIONED_INDEX := by
      by_contra hnd
      push_neg at hnd
      exact h ⟨hnd.1, hnd.2.1, hnd.2.2.1, hnd.2.2.2.1, hnd.2.2.2.2⟩
    exact ⟨iff_of_false (by simp) (not_not.mpr hd), fun _ => rfl⟩

/-- Witness for C10 at a partitioned table with two tree members. -/
theorem pg_partition_tree_relkind_gate_witness :
    PartitionFuncs.pg_partition_tree
        ⟨fun _ => 'p', fun r => [r, 2], fun i => if i = 2 then [1] else []⟩ 1
      = Except.ok
          ((PartitionFuncs.PartEnv.inheritors
              ⟨fun _ => 'p', fun r => [r, 2], fun i => if i = 2 then [1] else []⟩ 1).map
            (PartitionFuncs.partitionTreeRow
              ⟨fun _ => 'p', fun r => [r, 2], fun i => if i = 2 then [1] else []⟩ 1)) :=
  (pg_partition_tree_relkind_gate
      ⟨fun _ => 'p', fun r => [r, 2], fun i => if i = 2 then [1] else []⟩ 1).2
    (Or.inr (Or.inr (Or.inr (Or.inl rfl))))

namespace Jit

/-- Lookup fails exactly when the identity is absent from the table. -/
theorem lookupHandle_eq_none (t : List (Nat × Nat)) (id : Nat) :
    lookupHandle t id = none ↔ id ∉ t.map Prod.fst := by
  induction t with
  | nil => simp [lookupHandle]
  | cons p rest ih =>
    obtain ⟨k, v⟩ := p
    by_cases hk : k = id
    · subst hk
      simp [lookupHandle]
    · simp only [lookupHandle, if_neg hk, List.map_cons, List.mem_cons, ih]
      constructor
      · intro hn hc
        rcases hc with hc | hc
        · exact hk hc.symm
        · exact hn hc
      · intro hn
        exact fun hc => hn (Or.inr hc)

/-- A successful lookup names an entry of the table. -/
theorem lookupHandle_mem (t : List (Nat × Nat)) (id h : Nat)
    (hl : lookupHandle t id = some h) : (id, h) ∈ t := by
  induction t with
  | nil => simp [lookupHandle] at hl
  | cons p rest ih =>
    obtain ⟨k, v⟩ := p
    by_cases hk : k = id
    · subst hk
      have hv : v = h := by simpa [lookupHandle] using hl
      subst hv
      exact List.mem_cons_self _ _
    · simp only [lookupHandle, if_neg hk] at hl
      exact List.mem_cons_of_mem _ (ih hl)

/-- The emission step never flips the released flag. -/
theorem emitStep_released (c : Context) (id : Nat) :
    (emitStep c id).1.released = c.released := by
  cases hl : lookupHandle c.table id <;> simp [emitStep, hl]

/-- The emission step preserves the Context invariant. -/
theorem contextInv_emitStep (c : Context) (id : Nat) (h : ContextInv c) :
    ContextInv (emitStep c id).1 := by
  obtain ⟨hr, hf, hs, hb, hm⟩ := h
  cases hl : lookupHandle c.table id with
  | some h0 => simpa [emitStep, hl] using ⟨hr, hf, hs, hb, hm⟩
  | none =>
    have hid : id ∉ c.table.map Prod.fst := (lookupHandle_eq_none _ _).mp hl
    refine ⟨by simpa [emitStep, hl] using hr, ?_, ?_, ?_, ?_⟩
    · simpa [emitStep, hl, List.nodup_cons, hf] using hid
    · simp only [emitStep, hl, List.map_cons, List.nodup_cons]
      refine ⟨fun hc => ?_, hs⟩
      rcases List.mem_map.mp hc with ⟨p, hp, hph⟩
      exact absurd (hph ▸ hb p hp) (lt_irrefl _)
    · simp only [emitStep, hl]
      intro p hp
      rcases List.mem_cons.mp hp with he | hmem
      · subst he
        exact Nat.lt_succ_self _
      · exact Nat.lt_succ_of_lt (hb p hmem)
    · simp [emitStep, hl, hm, List.reverse_cons]

/-- The initial Context satisfies the invariant. -/
theorem contextInv_init : ContextInv initContext := by
  refine ⟨rfl, ?_, ?_, ?_, rfl⟩ <;> simp [initContext]

/-- Running a request sequence preserves the Context invariant. -/
theorem contextInv_runEmits (c : Context) (ids : List Nat) (h : ContextInv c) :
    ContextInv (runEmits c ids).1 := by
  induction ids generalizing c with
  | nil => exact h
  | cons id rest ih =>
    simp only [runEmits]
    exact ih _ (contextInv_emitStep c id h)

/-- An existing memoization entry survives an emission step. -/
theorem lookupHandle_emitStep_stable (c : Context) (j id h : Nat)
    (hl : lookupHandle c.table id = some h) :
    lookupHandle (emitStep c j).1.table id = some h := by
  cases hj : lookupHandle c.table j with
  | some h0 => simpa [emitStep, hj] using hl
  | none =>
    have hji : j ≠ id := by
      intro he
      rw [he, hl] at hj
      cases hj
    simpa [emitStep, hj, lookupHandle, if_neg hji] using hl

/-- An existing memoization entry survives a whole request sequence. -/
theorem lookupHandle_runEmits_stable (c : Context) (ids : List Nat) (id h : Nat)
    (hl : lookupHandle c.table id = some h) :
    lookupHandle (runEmits c ids).1.table id = some h := by
  induction ids generalizing c with
  | nil => exact hl
  | cons j rest ih =>
    simp only [runEmits]
    exact ih _ (lookupHandle_emitStep_stable c j id h hl)

/-- After an emission step, the requested identity is memoized to the
returned handle. -/
theorem emitStep_lookup_self (c : Context) (id : Nat) :
    lookupHandle (emitStep c id).1.table id = some (emitStep c id).2 := by
  cases hl : lookupHandle c.table id with
  | some h => simp [emitStep, hl]
  | none => simp [emitStep, hl, lookupHandle]

/-- The handles returned by a request sequence are exactly the final
table's memoized handles of the requested identities. -/
theorem runEmits_handles_eq (c : Context) (ids : List Nat) :
    (runEmits c ids).2
      = ids.map (fun i => (lookupHandle (runEmits c ids).1.table i).getD 0) := by
  induction ids generalizing c with
  | nil => rfl
  | cons id rest ih =>
    simp only [runEmits, List.map_cons]
    refine congrArg₂ (· :: ·) ?_ (ih (emitStep c id).1)
    rw [lookupHandle_runEmits_stable (emitStep c id).1 rest id _
      (emitStep_lookup_self c id)]
    rfl

/-- Every requested identity ends up memoized. -/
theorem runEmits_lookup_isSome (c : Context) (ids : List Nat) (i : Nat) (hi : i ∈ ids) :
    (lookupHandle (runEmits c ids).1.table i).isSome := by
  induction ids generalizing c with
  | nil => cases hi
  | cons id rest ih =>
    rcases List.mem_cons.mp hi with he | hmem
    · subst he
      simp only [runEmits]
      rw [lookupHandle_runEmits_stable (emitStep c i).1 rest i _
        (emitStep_lookup_self c i)]
      rfl
    · simp only [runEmits]
      exact ih (emitStep c id).1 hmem

/-- Under the invariant, distinct identities are memoized to distinct
handles. -/
theorem lookupHandle_inj (c : Context) (h : ContextInv c) (i1 i2 h0 : Nat)
    (hl1 : lookupHandle c.table i1 = some h0)
    (hl2 : lookupHandle c.table i2 = some h0) : i1 = i2 := by
  obtain ⟨-, -, hs, -, -⟩ := h
  have m1 := lookupHandle_mem _ _ _ hl1
  have m2 := lookupHandle_mem _ _ _ hl2
  have hpq : (i1, h0) = (i2, h0) := List.inj_on_of_nodup_map hs m1 m2 rfl
  exact congrArg Prod.fst hpq

/-- A memoized `emit_or_get` call is idempotent: repeating it returns
the same handle and leaves the Context unchanged. -/
theorem emit_or_get_idem (ctx : Context) (id : Nat) (c1 : Context) (h : Nat)
    (he : emit_or_get ctx id = .ok (c1, h)) : emit_or_get c1 id = .ok (c1, h) := by
  unfold emit_or_get at he ⊢
  by_cases hr : ctx.released
  · simp [hr] at he
  · simp only [hr, if_false, Bool.false_eq_true, if_neg, Except.ok.injEq] at he
    have h1 : (emitStep ctx id).1 = c1 := congrArg Prod.fst he
    have h2 : (emitStep ctx id).2 = h := congrArg Prod.snd he
    have hrel : c1.released = false := by
      rw [← h1, emitStep_released]
      exact Bool.not_eq_true _ ▸ hr
    have hlk : lookupHandle c1.table id = some h := by
      rw [← h1, ← h2]
      exact emitStep_lookup_self ctx id
    rw [hrel]
    simp [emitStep, hlk]

/-- Each identity is materialized at most once across a request
sequence on a fresh Context. -/
theorem runEmits_materialized_once (ids : List Nat) (id : Nat) :
    ((runEmits initContext ids).1.materialized.count id) ≤ 1 := by
  obtain ⟨-, hf, -, -, hm⟩ := contextInv_runEmits initContext ids contextInv_init
  rw [hm, List.count_reverse]
  exact List.nodup_iff_count_le_one.mp hf id

/-- Taking the finset of a mapped list is the image of the finset. -/
theorem toFinset_map_eq_image (l : List Nat) (f : Nat → Nat) :
    (l.map f).toFinset = l.toFinset.image f := by
  induction l with
  | nil => rfl
  | cons a t ih => simp [List.toFinset_cons, ih, Finset.image_insert]

/-- The distinct returned handles are in bijection with the distinct
requested identities. -/
theorem runEmits_distinct_handles (ids : List Nat) :
    ((runEmits initContext ids).2).dedup.length = ids.dedup.length := by
  have hinv := contextInv_runEmits initContext ids contextInv_init
  rw [runEmits_handles_eq initContext ids, ← List.card_toFinset, ← List.card_toFinset,
    toFinset_map_eq_image]
  apply Finset.card_image_of_injOn
  intro x hx y hy hxy
  have hx' : x ∈ ids := List.mem_toFinset.mp hx
  have hy' : y ∈ ids := List.mem_toFinset.mp hy
  obtain ⟨hx0, hxe⟩ := Option.isSome_iff_exists.mp
    (runEmits_lookup_isSome initContext ids x hx')
  obtain ⟨hy0, hye⟩ := Option.isSome_iff_exists.mp
    (runEmits_lookup_isSome initContext ids y hy')
  simp only [hxe, hye, Option.getD_some] at hxy
  exact lookupHandle_inj _ hinv x y hx0 hxe (hxy ▸ hye)

end Jit

/-- Claim C3: `emit_or_get` is idempotent per (Context, logical
identity) — a repeat request returns the same handle with the Context
unchanged — each identity is materialized at most once, and the number
of distinct handles returned over a request sequence equals the number
of distinct identities requested. -/
theorem emit_or_get_memoized :
    (∀ ctx id c1 h, Jit.emit_or_get ctx id = .ok (c1, h) →
        Jit.emit_or_get c1 id = .ok (c1, h))
    ∧ (∀ ids id, ((Jit.runEmits Jit.initContext ids).1.materialized.count id) ≤ 1)
    ∧ (∀ ids, ((Jit.runEmits Jit.initContext ids).2).dedup.length
        = ids.dedup.length) :=
  ⟨Jit.emit_or_get_idem, Jit.runEmits_materialized_once, Jit.runEmits_distinct_handles⟩

/-- Witness for C3: a repeat request for identity 5 returns handle 0
and leaves the Context untouched. -/
theorem emit_or_get_memoized_witness :
    Jit.emit_or_get ⟨false, [(5, 0)], 1, [5]⟩ 5 = .ok (⟨false, [(5, 0)], 1, [5]⟩, 0) :=
  emit_or_get_memoized.1 Jit.initContext 5 ⟨false, [(5, 0)], 1, [5]⟩ 0 rfl
